import Mathlib

/-
Verification of the PyFrac planar hydraulic-fracture propagation engine
(shallow embedding of the time-stepping, solver and controller code).

Numbers coming out of the floating-point pipeline are modelled by the type
RV (a rational value or NaN); NaN propagates through arithmetic and makes
every comparison false, following IEEE-754 semantics as used by numpy.
Arrays are lists; numpy fancy indexing is modelled by gather and scatter.
Dense numeric subroutines that only feed values into the control flow
(tip-asymptote inversion, fast marching, front reconstruction, volume
integrals, the linear solver) are abstracted as oracle parameters; every
branch and return of the embedded functions mirrors the Python source.
-/

namespace PyFrac

/-- A floating-point value: either NaN or an exact rational. -/
inductive RV where
  | nan : RV
  | val (q : ℚ) : RV
deriving DecidableEq, Repr

namespace RV

def add : RV → RV → RV
  | val a, val b => val (a + b)
  | _, _ => nan

def mul : RV → RV → RV
  | val a, val b => val (a * b)
  | _, _ => nan

def neg : RV → RV
  | val a => val (-a)
  | nan => nan

def rabs : RV → RV
  | val a => val |a|
  | nan => nan

/-- Division; division by zero gives NaN (it only occurs for the mean of an
empty array, where numpy also produces NaN). -/
def div : RV → RV → RV
  | val a, val b => if b = 0 then nan else val (a / b)
  | _, _ => nan

/-- Strict less-than; false whenever one side is NaN (IEEE-754). -/
def lt : RV → RV → Bool
  | val a, val b => decide (a < b)
  | _, _ => false

def isnan : RV → Bool
  | nan => true
  | val _ => false

def sumL (l : List RV) : RV := l.foldl add (val 0)

end RV

/-- np.mean: sum divided by length (NaN on an empty array or if any entry
is NaN). -/
def npMean (l : List RV) : RV := RV.div (RV.sumL l) (RV.val (l.length : ℚ))

/-- np.isnan(...).any(). -/
def isnanAny (l : List RV) : Bool := l.any RV.isnan

/-- (v < 0).any(). -/
def anyNeg (l : List RV) : Bool := l.any (fun x => RV.lt x (RV.val 0))

/-- Gather w[idx] (numpy fancy read); indices are in range in every use. -/
def gatherRV (w : List RV) (idx : List ℕ) : List RV :=
  idx.map (fun c => w.getD c (RV.val 0))

/-- Scatter w[idx] = vals (numpy fancy write). -/
def scatterRV (w : List RV) (idx : List ℕ) (vals : List RV) : List RV :=
  (List.zip idx vals).foldl (fun acc p => acc.set p.1 p.2) w

/-- w_k[crack] = w_k[crack] + sol  (TimeSteppingViscousFluid.py line 201). -/
def fancyAddRV (w : List RV) (idx : List ℕ) (vals : List RV) : List RV :=
  scatterRV w idx (List.zipWith RV.add (gatherRV w idx) vals)

/-- Exit tag recording which return statement of Picard_Newton fired:
normal exit of the while loop, the k == maxitr cap (line 961), or the
singular-matrix except branch (line 952). -/
inductive PNExit where
  | converged : PNExit
  | capHit : PNExit
  | singular : PNExit
deriving DecidableEq, Repr

/-- The abstracted inputs of Picard_Newton (ElastoHydrodynamicSolver.py
line 908): picardStep returns np.linalg.solve(A, b) for the system
assembled from the current iterate (none encodes the LinAlgError branch),
newtonStep returns the Newton increment dx = solve(Jac, -Fx), convCheck is
the boolean produced by check_covergance. -/
structure PNArgs where
  picardStep : List RV → Option (List RV)
  newtonStep : List RV → List RV
  convCheck : List RV → List RV → Bool
  relax : ℚ
  ppn : ℕ
  maxitr : ℕ

/-- solk = (1 - relax) * solkm1 + relax * x  (line 951). -/
def relaxCombine (relax : ℚ) (solkm1 x : List RV) : List RV :=
  List.zipWith
    (fun a b => RV.add (RV.mul (RV.val (1 - relax)) a) (RV.mul (RV.val relax) b))
    solkm1 x

/-- Body of the while loop of Picard_Newton (lines 938-968); fuel bounds
the recursion and is instantiated with maxitr, which the guard k < maxitr
never exceeds. -/
def pnGo (args : PNArgs) : ℕ → List RV → Bool → ℕ → List RV × PNExit
  | 0, solk, _, _ => (solk, PNExit.converged)
  | fuel + 1, solk, conv, k =>
    if conv = false ∧ k < args.maxitr then
      let solkm1 := solk
      let next : Option (List RV) :=
        if k % args.ppn = 0 then
          some (List.zipWith RV.add solkm1 (args.newtonStep solkm1))
        else
          match args.picardStep solkm1 with
          | none => none
          | some x => some (relaxCombine args.relax solkm1 x)
      match next with
      | none => (List.replicate solkm1.length RV.nan, PNExit.singular)
      | some solk2 =>
        let conv2 := args.convCheck solk2 solkm1
        let k2 := k + 1
        if k2 = args.maxitr then (List.replicate solk2.length RV.nan, PNExit.capHit)
        else pnGo args fuel solk2 conv2 k2
    else (solk, PNExit.converged)

/-- Picard_Newton (ElastoHydrodynamicSolver.py lines 908-972): solk =
guess, k = 1, converged = False, then the loop. -/
def Picard_Newton (args : PNArgs) (guess : List RV) : List RV × PNExit :=
  pnGo args args.maxitr guess false 1

/-- The negative-width hack of injection_same_footprint
(TimeSteppingViscousFluid.py lines 211-214): entries that are negative but
greater than -1 * np.mean(w_k) are replaced by 0.01 * abs(entry); the mean
is taken over the vector before any replacement. -/
def smallNgtvReplace (w_k : List RV) : List RV :=
  let m := npMean w_k
  w_k.map (fun x =>
    if RV.lt x (RV.val 0) && RV.lt (RV.mul (RV.val (-1)) m) x then
      RV.mul (RV.val (1 / 100)) (RV.rabs x)
    else x)

/-- Tail of injection_same_footprint (lines 199-223): add the solution to
the width of the last time step on the crack cells, apply the
small-negative-width replacement, then return status 5 if the result has a
NaN or a negative entry and status 1 (with the width) otherwise. -/
def injectionSameFootprintTail (w : List RV) (crack : List ℕ) (sol : List RV) :
    ℕ × Option (List RV) :=
  let w_k := fancyAddRV w crack sol
  let w_k2 := smallNgtvReplace w_k
  if isnanAny w_k2 || anyNeg w_k2 then (5, none) else (1, some w_k2)

/-- injection_same_footprint (TimeSteppingViscousFluid.py lines 121-223),
with the elasticity-matrix bookkeeping elided (it is handled by the
tip-correction development below) and the solver abstracted by PNArgs: the
solution returned by Picard_Newton is fed to the validation tail. -/
def injection_same_footprint (args : PNArgs) (guess : List RV)
    (w : List RV) (crack : List ℕ) : ℕ × Option (List RV) :=
  injectionSameFootprintTail w crack (Picard_Newton args guess).1

/-! Tip filling-fraction correction of the elasticity matrix
(TimeSteppingViscousFluid.py lines 139-204 and
TimeSteppingVolumeControl.py lines 586-610). The matrix is a function of
two cell indices. -/

/-- One correction factor: r = FillF - 0.25 floored at 0.1, then
1 + (1 - r) / r * pi / 4. -/
noncomputable def tipCorrFactor (fillF : ℝ) : ℝ :=
  let r0 := fillF - 0.25
  let r := if r0 < 0.1 then 0.1 else r0
  1 + (1 - r) / r * Real.pi / 4

/-- C_EltTip = C[np.ix_(tips, tips)]: the saved tip block. -/
noncomputable def saveBlock (C : ℕ → ℕ → ℝ) (tips : List ℕ) : List (List ℝ) :=
  tips.map (fun i => tips.map (fun j => C i j))

/-- One step of the correction loop: C[t, t] *= (1 + ac * pi / 4) for the
tip element t = p.1 with fill fraction p.2. -/
noncomputable def corrStep (acc : ℕ → ℕ → ℝ) (p : ℕ × ℝ) : ℕ → ℕ → ℝ :=
  fun i j => if i = p.1 ∧ j = p.1 then acc i j * tipCorrFactor p.2 else acc i j

/-- The loop multiplying each tip diagonal entry C[t, t] by its correction
factor, in order, one factor per tip element. -/
noncomputable def applyTipCorrection (C : ℕ → ℕ → ℝ) (tips : List ℕ)
    (fillF : List ℝ) : ℕ → ℕ → ℝ :=
  (tips.zip fillF).foldl corrStep C

/-- C[np.ix_(tips, tips)] = saved: write the saved block back (tip lists
hold distinct cells, so the lookup by position is by indexOf). -/
noncomputable def restoreBlock (C : ℕ → ℕ → ℝ) (tips : List ℕ) (saved : List (List ℝ)) :
    ℕ → ℕ → ℝ := fun i j =>
  if i ∈ tips ∧ j ∈ tips then
    (saved.getD (tips.indexOf i) []).getD (tips.indexOf j) 0
  else C i j

/-- The save / correct / assemble+solve / restore pattern applied to C by a
call that performs the tip correction; every return statement that follows
the correction in the source is preceded by the restore, so this is the
value of C at every return of such a call. -/
noncomputable def scopedTipCorrection (C : ℕ → ℕ → ℝ) (tips : List ℕ)
    (fillF : List ℝ) : ℕ → ℕ → ℝ :=
  restoreBlock (applyTipCorrection C tips fillF) tips (saveBlock C tips)

/-! Boundary (reached-end-of-grid) check and the controller dispatch
(TimeSteppingVolumeControl.py lines 453-458 and 740-744,
TimeSteppingViscousFluid.py lines 349-354, Controller.py lines 75-92). -/

/-- Outcome of a step-attempt fragment: either a returned status code or
termination of the process by raise SystemExit. -/
inductive StepOutcome where
  | status (code : ℕ) : StepOutcome
  | sysExit : StepOutcome
deriving DecidableEq, Repr

/-- The loop over tip cells testing whether some tip cell is its own
neighbour (the boundary sentinel of the mesh). -/
def hasSelfLoopTip (nei : ℕ → Fin 4 → ℕ) (tips : List ℕ) : Bool :=
  tips.any (fun t => (List.finRange 4).any (fun j => nei t j == t))

/-- The boundary check of the volume-control step functions: return status
12 on a self-loop tip, otherwise continue. -/
def vcBoundaryCheck (nei : ℕ → Fin 4 → ℕ) (tips : List ℕ) : Option ℕ :=
  if hasSelfLoopTip nei tips then some 12 else none

/-- The boundary check of injection_extended_footprint in the
viscous-fluid module: raise SystemExit on a self-loop tip. -/
def viscousBoundaryCheck (nei : ℕ → Fin 4 → ℕ) (tips : List ℕ) :
    Option StepOutcome :=
  if hasSelfLoopTip nei tips then some StepOutcome.sysExit else none

/-- Action the controller run loop takes on a status: accept the new state
on 1, remesh on 12, roll back to a checkpoint otherwise. -/
inductive CtrlAction where
  | accept : CtrlAction
  | remeshAct : CtrlAction
  | rollback : CtrlAction
deriving DecidableEq, Repr

/-- Dispatch on the returned status in Controller.run (lines 75-92). -/
def controllerDispatch (status : ℕ) : CtrlAction :=
  if status = 1 then CtrlAction.accept
  else if status = 12 then CtrlAction.remeshAct
  else CtrlAction.rollback

/-- The elasticity matrix update on remesh: self.C *= 1/2 (line 82). -/
noncomputable def controllerCUpdate (status : ℕ) (C : ℕ → ℕ → ℝ) : ℕ → ℕ → ℝ :=
  if status = 12 then fun i j => C i j * (1 / 2) else C

/-! Filling-fraction clamp and validity check
(TimeSteppingVolumeControl.py lines 479-485,
TimeSteppingViscousFluid.py lines 376-382). -/

/-- np.finfo(float).eps = 2^-52. -/
def npEps : ℚ := 1 / 2 ^ 52

/-- Volume-control clamp: values strictly between 1 and 1 + 1e-4 are set
to 1. -/
def fillFracClampVC (F : List ℚ) : List ℚ :=
  F.map (fun x => if 1 < x ∧ x < 1 + 1 / 10000 then 1 else x)

/-- Viscous-fluid clamp: values strictly between 1 and 1 + 1e-6 are set
to 1. -/
def fillFracClampViscous (F : List ℚ) : List ℚ :=
  F.map (fun x => if 1 < x ∧ x < 1 + 1 / 1000000 then 1 else x)

/-- The validity check after clamping: status 9 when some value exceeds 1
or lies below 0 - eps, otherwise continue. -/
def fillFracCheck (F : List ℚ) : Option ℕ :=
  if (F.any (fun x => decide (1 < x))) || (F.any (fun x => decide (x < 0 - npEps)))
    then some 9 else none

/-! Toughness-iteration loops and the skeleton of
injection_extended_footprint_volumeControl. The numeric subroutines only
feed the control flow, so they are abstracted per iteration: invNan says
whether TipAsymInversion returned a NaN, projNan / kprimeNan whether the
front projection or toughness evaluation did, fmmIncomplete whether fast
marching left a cell at 1e10, and normSmall whether the toughness norm
fell below the tolerance. -/

/-- Abstracted data of one run of the volume-control extended-footprint
step (TimeSteppingVolumeControl.py lines 297-662). -/
structure VCEnv where
  maxToughnessItr : ℕ
  k1cFuncPresent : Bool
  projNan : ℕ → Bool
  kprimeNan : ℕ → Bool
  invNan : ℕ → Bool
  fmmIncomplete : ℕ → Bool
  normSmall : ℕ → Bool
  alphaLBad : Bool
  nei : ℕ → Fin 4 → ℕ
  tipsNew : List ℕ
  fillFrac : List ℚ
  stagnantAny : Bool
  kiPrimeNan : Bool
  wTipNeg : Bool
  wNan : Bool
  wNeg : Bool

/-- The volume-control toughness loop (lines 346-439): itr starts at 1;
inside the body the projection and toughness NaN checks return 11, the
inversion NaN check returns 7, the fast-marching check returns 2; the loop
breaks when no toughness function is given or when the norm is below the
tolerance; the after-loop return of status 10 is commented out in the
source, so exhausting the iterations falls through (result none). -/
def vcToughnessLoop (env : VCEnv) : ℕ → ℕ → Option ℕ × Bool
  | 0, itr => (none, decide (env.maxToughnessItr ≤ itr))
  | fuel + 1, itr =>
    if itr < env.maxToughnessItr then
      if env.k1cFuncPresent && env.projNan itr then (some 11, false)
      else if env.k1cFuncPresent && env.kprimeNan itr then (some 11, false)
      else if env.invNan itr then (some 7, false)
      else if env.fmmIncomplete itr then (some 2, false)
      else if !env.k1cFuncPresent then (none, false)
      else if env.normSmall itr then (none, false)
      else vcToughnessLoop env fuel (itr + 1)
    else (none, true)

/-- The viscous-fluid toughness loop (TimeSteppingViscousFluid.py lines
262-331): itr starts at 0; the inversion NaN check returns 7; the loop
breaks on a small norm or an absent toughness function; the loop body ends
with itr += 1. Returns the early status (if any) and the final itr. -/
def viscousToughnessLoopGo (maxItr : ℕ) (kprimePresent : Bool)
    (invNan normSmall : ℕ → Bool) : ℕ → ℕ → Option ℕ × ℕ
  | 0, itr => (none, itr)
  | fuel + 1, itr =>
    if itr < maxItr then
      if invNan itr then (some 7, itr)
      else if normSmall itr then (none, itr)
      else if !kprimePresent then (none, itr)
      else viscousToughnessLoopGo maxItr kprimePresent invNan normSmall fuel (itr + 1)
    else (none, itr)

/-- The viscous-fluid toughness stage: run the loop, then the active
after-loop check (lines 333-335): if itr == maxToughnessItr return status
10; otherwise continue (result none). -/
def viscousToughnessStage (maxItr : ℕ) (kprimePresent : Bool)
    (invNan normSmall : ℕ → Bool) : Option ℕ :=
  match viscousToughnessLoopGo maxItr kprimePresent invNan normSmall maxItr 0 with
  | (some s, _) => some s
  | (none, itr) => if itr = maxItr then some 10 else none

/-- The checks that follow the toughness loop in
injection_extended_footprint_volumeControl, in source order: the
front-validity check (3), the boundary check (12), the filling-fraction
check (9), the stress-intensity check for stagnant cells (8), the
tip-volume check (4), and after the linear solve the width checks (5);
status 1 on success. -/
def vcLateStatus (env : VCEnv) : ℕ :=
  if env.alphaLBad then 3
  else if hasSelfLoopTip env.nei env.tipsNew then 12
  else if fillFracCheck (fillFracClampVC env.fillFrac) = some 9 then 9
  else if env.stagnantAny && env.kiPrimeNan then 8
  else if env.wTipNeg then 4
  else if env.wNan then 5
  else if env.wNeg then 5
  else 1

/-- Status returned by injection_extended_footprint_volumeControl
(lines 297-662): an early status from the toughness loop, otherwise the
first failing post-loop check. -/
def vcExtendedStatus (env : VCEnv) : ℕ :=
  match (vcToughnessLoop env env.maxToughnessItr 1).1 with
  | some s => s
  | none => vcLateStatus env

/-- True when the volume-control extended-footprint call returns before
reaching the tip correction of C (line 586): every status other than 5 and
1 is decided earlier. -/
def vcEarlyReturn (env : VCEnv) : Bool :=
  !(vcExtendedStatus env = 5 || vcExtendedStatus env = 1)

/-- The value of C at every return of
injection_extended_footprint_volumeControl: untouched on the returns
before the correction, otherwise corrected and restored around the solve
(corrTips and corrFillF stand for EltsTipNew[partlyFilledTip] and the
clamped FillFrac_k[partlyFilledTip]). -/
noncomputable def vcExtendedCOut (env : VCEnv) (C : ℕ → ℕ → ℝ)
    (corrTips : List ℕ) (corrFillF : List ℝ) : ℕ → ℕ → ℝ :=
  if vcEarlyReturn env then C else scopedTipCorrection C corrTips corrFillF

/-! Reattempt time-step sizing (Controller.py lines 144-149). -/

/-- The trial time step of reattempt i: TimeStep * reAttemptFactor ** i,
overwritten for i > maxReattempts/2 - 1 by
TimeStep * (1/reAttemptFactor) ** (i + 1 - maxReattempts/2); the second
exponent is a float, hence a real power. -/
noncomputable def smallerTimeStep (timeStep reAttemptFactor : ℝ)
    (maxReattempts i : ℕ) : ℝ :=
  let s := timeStep * reAttemptFactor ^ i
  if (i : ℝ) > (maxReattempts : ℝ) / 2 - 1 then
    timeStep * (1 / reAttemptFactor) ^ ((i : ℝ) + 1 - (maxReattempts : ℝ) / 2)
  else s

/-! The volume-control equation system
(ElastoHydrodynamicSolver.py lines 853-869). -/

/-- Dot product of two coefficient lists. -/
def dotl (a b : List ℚ) : ℚ := (List.zipWith (· * ·) a b).sum

/-- MakeEquationSystem_volumeControl: A = [[Ccc, -1], [1 ... 1, 0]] and
S = [-sigma_o - Ccc w_last - Cct wTip ;
     sum(Q) dt / ElemArea - (sum wTip - sum w_last[tip]) - sum lkOff]. -/
def MakeEquationSystem_volumeControl (w_lst_tmstp : ℕ → ℚ) (wTip : List ℚ)
    (EltChannel EltTip : List ℕ) (sigma_o : ℕ → ℚ) (C : ℕ → ℕ → ℚ)
    (dt : ℚ) (Q : List ℚ) (ElemArea : ℚ) (lkOff : List ℚ) :
    List (List ℚ) × List ℚ :=
  let Ccc := EltChannel.map (fun i => EltChannel.map (fun j => C i j))
  let n := EltChannel.length
  let A1 := Ccc.map (fun row => row ++ [-1])
  let A2 := A1 ++ [List.replicate (n + 1) 1]
  let A := A2.set n ((A2.getD n []).set n 0)
  let S0 := EltChannel.map (fun i =>
    - sigma_o i - dotl (EltChannel.map (fun j => C i j)) (EltChannel.map w_lst_tmstp)
      - dotl (EltTip.map (fun j => C i j)) wTip)
  let S := S0 ++
    [Q.sum * dt / ElemArea - (wTip.sum - (EltTip.map w_lst_tmstp).sum) - lkOff.sum]
  (A, S)

/-! Convergence check of the EHD outer iteration
(ElastoHydrodynamicSolver.py lines 1001-1035). Solution vectors carry
exact rationals; the Euclidean norms are real numbers. -/

/-- Gather sol[idxs]. -/
def gatherQ (sol : List ℚ) (idxs : List ℕ) : List ℚ :=
  idxs.map (fun i => sol.getD i 0)

/-- np.where(l == 0)[0]: the positions of the zero entries. -/
def whereZero (l : List ℚ) : List ℕ :=
  (l.enum.filter (fun p => p.2 = 0)).map Prod.fst

/-- np.delete(l, ps): drop the entries at the listed positions
(out-of-range positions drop nothing). -/
def deleteIdxs (l : List ℚ) (ps : List ℕ) : List ℚ :=
  (l.enum.filter (fun p => ¬ p.1 ∈ ps)).map Prod.snd

/-- abs(a - b) / abs(b), componentwise. -/
def relDiff (a b : List ℚ) : List ℚ :=
  List.zipWith (fun x y => |x - y| / |y|) a b

/-- Sum of squares of a list of rationals. -/
def sumSq (l : List ℚ) : ℚ := (l.map (fun x => x ^ 2)).sum

/-- np.linalg.norm: the Euclidean norm. -/
noncomputable def norml2 (l : List ℚ) : ℝ := Real.sqrt ((sumSq l : ℚ) : ℝ)

/-- The three index groups of the solution vector (channel width, pressure,
active-width-constraint traction). -/
structure ConvIndices where
  ind0 : List ℕ
  ind1 : List ℕ
  ind2 : List ℕ

/-- check_covergance: the width norm is taken after deleting the positions
where solkm1 is zero (the else branch when there are none), the pressure
norm over ind1, the traction norm over ind2 (zero when ind2 is empty);
converged iff all three norms are at most tol. -/
noncomputable def check_covergance (solk solkm1 : List ℚ) (ind : ConvIndices)
    (tol : ℝ) : Prop :=
  let z := whereZero solkm1
  let norm_w :=
    if 0 < z.length then
      norml2 (relDiff (deleteIdxs (gatherQ solk ind.ind0) z)
                      (deleteIdxs (gatherQ solkm1 ind.ind0) z))
    else norml2 (relDiff (gatherQ solk ind.ind0) (gatherQ solkm1 ind.ind0))
  let norm_p := norml2 (relDiff (gatherQ solk ind.ind1) (gatherQ solkm1 ind.ind1))
  let norm_tr :=
    if 0 < ind.ind2.length then
      norml2 (relDiff (gatherQ solk ind.ind2) (gatherQ solkm1 ind.ind2))
    else 0
  norm_w ≤ tol ∧ norm_p ≤ tol ∧ norm_tr ≤ tol

/-- The width norm as the specification states it: over exactly those
width entries whose previous-iterate value is nonzero. -/
noncomputable def widthNormSpec (solk solkm1 : List ℚ) (ind0 : List ℕ) : ℝ :=
  norml2 ((ind0.filter (fun i => ¬ solkm1.getD i 0 = 0)).map
    (fun i => |solk.getD i 0 - solkm1.getD i 0| / |solkm1.getD i 0|))

/-- The pressure / traction norm over an index group. -/
noncomputable def groupNormSpec (solk solkm1 : List ℚ) (idxs : List ℕ) : ℝ :=
  norml2 (idxs.map (fun i => |solk.getD i 0 - solkm1.getD i 0| / |solkm1.getD i 0|))

/-! Ribbon-cell signed-distance update inside the toughness loop
(TimeSteppingVolumeControl.py lines 373-392 and 969-986). -/

/-- sgndDist_k after the inversion assignment: 1e10 everywhere, and minus
the inverted value on the ribbon cells. -/
def sgndDistAfterInversion (ribbon : List ℕ) (inv : ℕ → ℚ) : ℕ → ℚ :=
  fun j => if j ∈ ribbon then - inv j else (10 : ℚ) ^ 10

/-- sgndDist_k[ribbon] = np.minimum(sgndDist_k[ribbon], prev[ribbon]):
the receding-front clamp against the signed distance of the last time
step. -/
def ribbonRecedeClamp (sg prev : ℕ → ℚ) (ribbon : List ℕ) : ℕ → ℚ :=
  fun j => if j ∈ ribbon then min (sg j) (prev j) else sg j

/-- A concrete benign run of the volume-control extended-footprint step in
which the toughness iteration exhausts its two allowed iterations (the
toughness function is present and the norm never falls below the
tolerance) and everything downstream succeeds. -/
def envC5 : VCEnv where
  maxToughnessItr := 2
  k1cFuncPresent := true
  projNan := fun _ => false
  kprimeNan := fun _ => false
  invNan := fun _ => false
  fmmIncomplete := fun _ => false
  normSmall := fun _ => false
  alphaLBad := false
  nei := fun _ _ => 1
  tipsNew := []
  fillFrac := []
  stagnantAny := false
  kiPrimeNan := false
  wTipNeg := false
  wNan := false
  wNeg := false

/-! Theorems. -/

/-- Claim C6 as stated is false: at reattempt i = 2 with maxReattempts = 4,
reAttemptFactor = 1/2 and initial step 1, the trial step computed by
advance_time_step is 2, not 1 * (1/2)^2 = 1/4 — the second half of the
reattempts increases the step instead of decreasing it. -/
theorem c6_counterexample :
    smallerTimeStep 1 (1/2) 4 2 = 2 ∧
    smallerTimeStep 1 (1/2) 4 2 ≠ 1 * ((1:ℝ)/2) ^ (2:ℕ) := by
  have h : smallerTimeStep 1 (1/2) 4 2 = 2 := by
    unfold smallerTimeStep
    rw [if_pos (by norm_num)]
    have he : ((2:ℕ) : ℝ) + 1 - ((4:ℕ) : ℝ) / 2 = 1 := by norm_num
    rw [he, Real.rpow_one]
    norm_num
  exact ⟨h, by rw [h]; norm_num⟩

/-- Claim C6, amended: the reattempt loop runs i = 0 .. maxReattempts - 1;
while i ≤ maxReattempts/2 - 1 the trial step is TimeStep * f^i, but for
i > maxReattempts/2 - 1 it is TimeStep * (1/f)^(i + 1 - maxReattempts/2),
an increasing sequence when f < 1. -/
theorem c6_trial_step_schedule (dt f : ℝ) (m i : ℕ) :
    ((i : ℝ) ≤ (m : ℝ) / 2 - 1 → smallerTimeStep dt f m i = dt * f ^ i) ∧
    ((m : ℝ) / 2 - 1 < (i : ℝ) →
      smallerTimeStep dt f m i = dt * (1/f) ^ ((i : ℝ) + 1 - (m : ℝ) / 2)) := by
  constructor
  · intro h
    unfold smallerTimeStep
    rw [if_neg (not_lt.mpr h)]
  · intro h
    unfold smallerTimeStep
    rw [if_pos h]

theorem c6_trial_step_schedule_witness :
    smallerTimeStep 1 (1/2) 4 0 = 1 * ((1:ℝ)/2) ^ (0:ℕ) :=
  (c6_trial_step_schedule 1 (1/2) 4 0).1 (by norm_num)

/-- Claim C9: inside the toughness loop of the volume-control step
functions, the signed distance written to a ribbon cell after the
tip-asymptote inversion is the minimum of minus the inverted value and the
signed distance of the last time step, hence never greater than the
latter; cells outside the ribbon keep the value set by the inversion
stage. -/
theorem c9_front_never_recedes (ribbon : List ℕ) (inv prev : ℕ → ℚ) (j : ℕ)
    (hj : j ∈ ribbon) :
    ribbonRecedeClamp (sgndDistAfterInversion ribbon inv) prev ribbon j
      = min (- inv j) (prev j) ∧
    ribbonRecedeClamp (sgndDistAfterInversion ribbon inv) prev ribbon j ≤ prev j ∧
    (∀ j2, j2 ∉ ribbon →
      ribbonRecedeClamp (sgndDistAfterInversion ribbon inv) prev ribbon j2
        = sgndDistAfterInversion ribbon inv j2) := by
  refine ⟨?_, ?_, ?_⟩
  · unfold ribbonRecedeClamp sgndDistAfterInversion
    rw [if_pos hj, if_pos hj]
  · unfold ribbonRecedeClamp sgndDistAfterInversion
    rw [if_pos hj]
    exact min_le_right _ _
  · intro j2 hj2
    unfold ribbonRecedeClamp
    rw [if_neg hj2]

theorem c9_front_never_recedes_witness :
    ribbonRecedeClamp (sgndDistAfterInversion [0] (fun _ => 3))
        (fun _ => -1) [0] 0 = min (-(3:ℚ)) (-1) ∧
    ribbonRecedeClamp (sgndDistAfterInversion [0] (fun _ => 3))
        (fun _ => -1) [0] 0 ≤ -1 := by
  have h := c9_front_never_recedes [0] (fun _ => 3) (fun _ => -1) 0 (by decide)
  exact ⟨h.1, h.2.1⟩

/-- Claim C7: in the system assembled by MakeEquationSystem_volumeControl,
the last row of A carries coefficient 1 on every channel width increment
and 0 on the uniform pressure unknown, and the last entry of the
right-hand side is sum(Q) dt / ElemArea minus (the sum of the imposed tip
widths minus the sum of the previous tip widths) minus the total
leak-off. -/
theorem c7_volume_control_last_row (w_lst : ℕ → ℚ) (wTip : List ℚ)
    (EltChannel EltTip : List ℕ) (sigma_o : ℕ → ℚ) (C : ℕ → ℕ → ℚ)
    (dt : ℚ) (Q : List ℚ) (ElemArea : ℚ) (lkOff : List ℚ) (j : ℕ)
    (hj : j < EltChannel.length) :
    (((MakeEquationSystem_volumeControl w_lst wTip EltChannel EltTip sigma_o C
        dt Q ElemArea lkOff).1.getD EltChannel.length []).getD j 0 = 1) ∧
    (((MakeEquationSystem_volumeControl w_lst wTip EltChannel EltTip sigma_o C
        dt Q ElemArea lkOff).1.getD EltChannel.length []).getD
        EltChannel.length 0 = 0) ∧
    ((MakeEquationSystem_volumeControl w_lst wTip EltChannel EltTip sigma_o C
        dt Q ElemArea lkOff).2.getD EltChannel.length 0
      = Q.sum * dt / ElemArea - (wTip.sum - (EltTip.map w_lst).sum)
          - lkOff.sum) := by
  unfold MakeEquationSystem_volumeControl
  simp only []
  set n := EltChannel.length with hn
  have hA1len : (List.map (fun row => row ++ [-1])
      (List.map (fun i => List.map (fun j => C i j) EltChannel) EltChannel)).length
      = n := by simp [hn]
  have hrow : ((List.map (fun row => row ++ [-1])
      (List.map (fun i => List.map (fun j => C i j) EltChannel) EltChannel))
        ++ [List.replicate (n + 1) (1:ℚ)]).getD n [] = List.replicate (n + 1) 1 := by
    rw [List.getD_eq_getElem?_getD]
    rw [← hA1len, List.getElem?_concat_length]
    rfl
  have hA2len : ((List.map (fun row => row ++ [-1])
      (List.map (fun i => List.map (fun j => C i j) EltChannel) EltChannel))
        ++ [List.replicate (n + 1) (1:ℚ)]).length = n + 1 := by
    simp [hA1len]
  have hlast : ((((List.map (fun row => row ++ [-1])
      (List.map (fun i => List.map (fun j => C i j) EltChannel) EltChannel))
        ++ [List.replicate (n + 1) (1:ℚ)]).set n
        ((((List.map (fun row => row ++ [-1])
          (List.map (fun i => List.map (fun j => C i j) EltChannel) EltChannel))
            ++ [List.replicate (n + 1) (1:ℚ)]).getD n []).set n 0)).getD n [])
      = (List.replicate (n + 1) (1:ℚ)).set n 0 := by
    rw [List.getD_eq_getElem?_getD, List.getElem?_set_self (by omega), hrow]
    rfl
  refine ⟨?_, ?_, ?_⟩
  · rw [hlast, List.getD_eq_getElem?_getD,
      List.getElem?_set_ne (by omega : n ≠ j),
      List.getElem?_replicate_of_lt (by omega)]
    rfl
  · rw [hlast, List.getD_eq_getElem?_getD,
      List.getElem?_set_self (by simp), Option.getD_some]
  · have hS0len : (List.map (fun i =>
        - sigma_o i - dotl (List.map (fun j => C i j) EltChannel)
            (List.map w_lst EltChannel)
          - dotl (List.map (fun j => C i j) EltTip) wTip) EltChannel).length = n := by
      simp [hn]
    rw [List.getD_eq_getElem?_getD, ← hS0len, List.getElem?_concat_length]
    rfl

theorem c7_volume_control_last_row_witness :
    (((MakeEquationSystem_volumeControl (fun _ => (0:ℚ)) [] [0] [] (fun _ => 0)
        (fun _ _ => 0) 1 [] 1 []).1.getD 1 []).getD 0 0 = 1) ∧
    (((MakeEquationSystem_volumeControl (fun _ => (0:ℚ)) [] [0] [] (fun _ => 0)
        (fun _ _ => 0) 1 [] 1 []).1.getD 1 []).getD 1 0 = 0) := by
  have h := c7_volume_control_last_row (fun _ => (0:ℚ)) [] [0] [] (fun _ => 0)
      (fun _ _ => 0) 1 [] 1 [] 0 (by decide)
  exact ⟨h.1, h.2.1⟩

/-- Claim C4 as stated is false: the fill fraction 1 + 1e-5 lies outside
[0, 1 + 1e-6], so the claim demands a failure with status 9, but the
volume-control code clamps every value strictly between 1 and 1 + 1e-4 to
1 and the check then passes. -/
theorem c4_counterexample :
    fillFracClampVC [1 + 1/100000] = [1] ∧
    fillFracCheck (fillFracClampVC [1 + 1/100000]) = none ∧
    ¬ ((1:ℚ) + 1/100000 ≤ 1 + 1/1000000) := by
  have h1 : fillFracClampVC [1 + 1/100000] = [1] := by
    unfold fillFracClampVC
    rw [List.map_cons, List.map_nil, if_pos (by norm_num)]
  refine ⟨h1, ?_, by norm_num⟩
  rw [h1]
  unfold fillFracCheck npEps
  norm_num

/-- Claim C4, amended for the volume-control branch: a computed fill
fraction strictly between 1 and 1 + 1e-4 is clamped to exactly 1 (the
viscous-fluid branch uses the window (1, 1 + 1e-6) instead); the step
fails with status 9 exactly when some post-clamp value exceeds 1 or lies
below 0 - machine epsilon; and when the check passes every post-clamp
value lies in [-eps, 1]. -/
theorem c4_fill_fraction_amended (F : List ℚ) :
    (∀ i, i < F.length → (fillFracClampVC F).getD i 0 =
      (if 1 < F.getD i 0 ∧ F.getD i 0 < 1 + 1/10000 then 1 else F.getD i 0)) ∧
    (∀ i, i < F.length → (fillFracClampViscous F).getD i 0 =
      (if 1 < F.getD i 0 ∧ F.getD i 0 < 1 + 1/1000000 then 1 else F.getD i 0)) ∧
    (fillFracCheck (fillFracClampVC F) = some 9 ↔
      (∃ x ∈ fillFracClampVC F, 1 < x) ∨
      (∃ x ∈ fillFracClampVC F, x < 0 - npEps)) ∧
    (fillFracCheck (fillFracClampVC F) = none →
      ∀ x ∈ fillFracClampVC F, 0 - npEps ≤ x ∧ x ≤ 1) := by
  have hcheck : ∀ G : List ℚ, (fillFracCheck G = some 9 ↔
      (∃ x ∈ G, 1 < x) ∨ (∃ x ∈ G, x < 0 - npEps)) := by
    intro G
    simp only [fillFracCheck, Bool.or_eq_true, List.any_eq_true, decide_eq_true_eq]
    split_ifs with hc
    · exact iff_of_true rfl hc
    · exact iff_of_false (by simp) hc
  refine ⟨?_, ?_, hcheck _, ?_⟩
  · intro i hi
    unfold fillFracClampVC
    rw [List.getD_eq_getElem?_getD, List.getElem?_map]
    rw [List.getElem?_eq_getElem hi]
    simp [List.getD_eq_getElem?_getD, List.getElem?_eq_getElem hi]
  · intro i hi
    unfold fillFracClampViscous
    rw [List.getD_eq_getElem?_getD, List.getElem?_map]
    rw [List.getElem?_eq_getElem hi]
    simp [List.getD_eq_getElem?_getD, List.getElem?_eq_getElem hi]
  · intro h x hx
    have hnone : ¬ ((∃ x ∈ fillFracClampVC F, 1 < x) ∨
        (∃ x ∈ fillFracClampVC F, x < 0 - npEps)) := by
      intro hcontra
      rw [(hcheck (fillFracClampVC F)).mpr hcontra] at h
      exact Option.noConfusion h
    push_neg at hnone
    exact ⟨hnone.2 x hx, hnone.1 x hx⟩

theorem c4_fill_fraction_amended_witness :
    (fillFracClampVC [1 + 1/20000]).getD 0 0 = 1 ∧
    (∀ x ∈ fillFracClampVC [1 + 1/20000], 0 - npEps ≤ x ∧ x ≤ 1) := by
  have h := c4_fill_fraction_amended [1 + 1/20000]
  have h1 : fillFracClampVC [1 + 1/20000] = [1] := by
    unfold fillFracClampVC
    rw [List.map_cons, List.map_nil, if_pos (by norm_num)]
  have h2 : fillFracCheck (fillFracClampVC [1 + 1/20000]) = none := by
    rw [h1]
    unfold fillFracCheck npEps
    norm_num
  exact ⟨by rw [h1]; rfl, h.2.2.2 h2⟩

/-- Claim C3 as stated is false for the viscous-injection branch: a tip
cell that is its own neighbour makes injection_extended_footprint raise
SystemExit (terminating the process) instead of returning the structured
status 12. -/
theorem c3_counterexample :
    viscousBoundaryCheck (fun _ _ => 0) [0] = some StepOutcome.sysExit ∧
    viscousBoundaryCheck (fun _ _ => 0) [0] ≠ some (StepOutcome.status 12) := by
  decide

/-- Claim C3, amended: when front reconstruction yields a tip cell with a
self-loop neighbour, the volume-control step functions return status 12,
which Controller.run handles by halving the elasticity matrix and
remeshing; the viscous-injection step function instead raises SystemExit
at the same check. -/
theorem c3_reached_end_behavior (nei : ℕ → Fin 4 → ℕ) (tips : List ℕ)
    (h : hasSelfLoopTip nei tips = true) (C : ℕ → ℕ → ℝ) :
    vcBoundaryCheck nei tips = some 12 ∧
    viscousBoundaryCheck nei tips = some StepOutcome.sysExit ∧
    controllerDispatch 12 = CtrlAction.remeshAct ∧
    controllerCUpdate 12 C = fun i j => C i j * (1/2) := by
  refine ⟨?_, ?_, rfl, ?_⟩
  · unfold vcBoundaryCheck
    rw [h]
    rfl
  · unfold viscousBoundaryCheck
    rw [h]
    rfl
  · unfold controllerCUpdate
    rw [if_pos rfl]

theorem c3_reached_end_behavior_witness :
    vcBoundaryCheck (fun _ _ => 0) [0] = some 12 ∧
    controllerDispatch 12 = CtrlAction.remeshAct := by
  have h := c3_reached_end_behavior (fun _ _ => 0) [0] (by decide) (fun _ _ => 0)
  exact ⟨h.1, h.2.2.1⟩

/-- The volume-control toughness loop can only return the statuses 11, 7
or 2 early; in particular it never produces status 10 (the after-loop
check is commented out in the source). -/
theorem vcToughnessLoop_ne_ten (env : VCEnv) :
    ∀ fuel itr, (vcToughnessLoop env fuel itr).1 ≠ some 10 := by
  intro fuel
  induction fuel with
  | zero => intro itr; simp [vcToughnessLoop]
  | succ n ih =>
    intro itr
    simp only [vcToughnessLoop]
    by_cases h1 : itr < env.maxToughnessItr
    · rw [if_pos h1]
      split_ifs <;> first | exact ih (itr + 1) | decide
    · rw [if_neg h1]
      simp

/-- When the toughness function is present, the inversion never fails and
the norm never falls below the tolerance, the viscous toughness loop runs
through all its iterations and ends with itr = maxToughnessItr. -/
theorem viscousLoop_exhausts (maxItr : ℕ) (invNan normSmall : ℕ → Bool)
    (h : ∀ it, it < maxItr → invNan it = false ∧ normSmall it = false) :
    ∀ fuel itr, itr ≤ maxItr → maxItr ≤ fuel + itr →
      viscousToughnessLoopGo maxItr true invNan normSmall fuel itr
        = (none, maxItr) := by
  intro fuel
  induction fuel with
  | zero =>
    intro itr h1 h2
    have he : itr = maxItr := by omega
    simp [viscousToughnessLoopGo, he]
  | succ n ih =>
    intro itr h1 h2
    by_cases hlt : itr < maxItr
    · simp only [viscousToughnessLoopGo]
      rw [if_pos hlt]
      rw [if_neg (by simp [(h itr hlt).1])]
      rw [if_neg (by simp [(h itr hlt).2])]
      rw [if_neg (by simp)]
      exact ih (itr + 1) (by omega) (by omega)
    · have he : itr = maxItr := by omega
      simp [viscousToughnessLoopGo, he]

/-- Claim C5, amended: when the toughness iteration reaches
maxToughnessItr without meeting the tolerance, the viscous-injection
branch returns status 10 (TimeSteppingViscousFluid.py lines 333-335), but
the volume-control branch never does: its status-10 return is commented
out (TimeSteppingVolumeControl.py lines 437-439), so the step continues
with the last iterate and returns whatever the remaining checks give. -/
theorem c5_toughness_cap (maxItr : ℕ) (invNan normSmall : ℕ → Bool)
    (h : ∀ it, it < maxItr → invNan it = false ∧ normSmall it = false)
    (env : VCEnv) :
    viscousToughnessStage maxItr true invNan normSmall = some 10 ∧
    vcExtendedStatus env ≠ 10 := by
  constructor
  · unfold viscousToughnessStage
    rw [viscousLoop_exhausts maxItr invNan normSmall h maxItr 0 (by omega) (by omega)]
    simp
  · unfold vcExtendedStatus
    cases hres : (vcToughnessLoop env env.maxToughnessItr 1).1 with
    | none =>
      show vcLateStatus env ≠ 10
      unfold vcLateStatus
      split_ifs <;> omega
    | some s =>
      show s ≠ 10
      have hs := vcToughnessLoop_ne_ten env env.maxToughnessItr 1
      rw [hres] at hs
      intro he
      exact hs (by rw [he])

theorem c5_toughness_cap_witness :
    viscousToughnessStage 2 true (fun _ => false) (fun _ => false) = some 10 ∧
    vcExtendedStatus envC5 ≠ 10 :=
  c5_toughness_cap 2 (fun _ => false) (fun _ => false)
    (fun _ _ => ⟨rfl, rfl⟩) envC5

/-- Claim C5 as stated is false for the volume-control branch: in the run
envC5 the toughness loop exhausts its iteration budget without converging
(the exhaustion flag is true) and the step nevertheless succeeds with
status 1, not 10. -/
theorem c5_counterexample :
    (vcToughnessLoop envC5 envC5.maxToughnessItr 1).2 = true ∧
    vcExtendedStatus envC5 = 1 ∧ (1:ℕ) ≠ 10 := by
  refine ⟨by decide, by decide, by decide⟩

/-- Entries other than those touched by the correction loop are preserved
by the fold. -/
theorem corrFold_preserve (ps : List (ℕ × ℝ)) : ∀ (C : ℕ → ℕ → ℝ) (i j : ℕ),
    (∀ p ∈ ps, ¬(i = p.1 ∧ j = p.1)) → ps.foldl corrStep C i j = C i j := by
  induction ps with
  | nil => intro C i j _; rfl
  | cons p ps ih =>
    intro C i j h
    have h1 := h p (List.mem_cons_self p ps)
    rw [List.foldl_cons, ih (corrStep C p) i j (fun q hq => h q (List.mem_cons_of_mem p hq))]
    unfold corrStep
    rw [if_neg h1]

/-- Reading the saved block back by position: for a member of the index
list, the map lookup at its first position gives the mapped value. -/
theorem getD_map_indexOf {α : Type} (l : List ℕ) (f : ℕ → α) (a : ℕ)
    (ha : a ∈ l) (d : α) : (l.map f).getD (l.indexOf a) d = f a := by
  have hlt : l.indexOf a < l.length := List.indexOf_lt_length.mpr ha
  rw [List.getD_eq_getElem?_getD, List.getElem?_map,
    List.getElem?_eq_getElem hlt]
  simp [List.getElem_indexOf hlt]

/-- Claim C2: the scoped save / tip-correct / restore pattern leaves the
elasticity matrix exactly as it was on every return path: the sameFP
viscous call and the volume-control extended-footprint call (on all its
return statuses, the early ones never touching C) end with C unchanged,
and while the correction is in force only the tip diagonal entries differ
from the original. -/
theorem c2_tip_correction_restored (C : ℕ → ℕ → ℝ) (tips : List ℕ)
    (fillF : List ℝ) (env : VCEnv) (corrTips : List ℕ) (corrFillF : List ℝ) :
    scopedTipCorrection C tips fillF = C ∧
    vcExtendedCOut env C corrTips corrFillF = C ∧
    (∀ i j, ¬(i = j ∧ i ∈ tips) → applyTipCorrection C tips fillF i j = C i j) := by
  have hpreserve : ∀ (C0 : ℕ → ℕ → ℝ) (tips0 : List ℕ) (fillF0 : List ℝ) (i j : ℕ),
      ¬(i ∈ tips0 ∧ j ∈ tips0) → applyTipCorrection C0 tips0 fillF0 i j = C0 i j := by
    intro C0 tips0 fillF0 i j hij
    unfold applyTipCorrection
    refine corrFold_preserve _ C0 i j ?_
    intro p hp hcontra
    have hmem := List.of_mem_zip hp
    refine hij ⟨?_, ?_⟩
    · rw [hcontra.1]; exact hmem.1
    · rw [hcontra.2]; exact hmem.1
  have hmain : ∀ (C0 : ℕ → ℕ → ℝ) (tips0 : List ℕ) (fillF0 : List ℝ),
      scopedTipCorrection C0 tips0 fillF0 = C0 := by
    intro C0 tips0 fillF0
    funext i j
    unfold scopedTipCorrection restoreBlock
    by_cases hij : i ∈ tips0 ∧ j ∈ tips0
    · rw [if_pos hij]
      unfold saveBlock
      rw [getD_map_indexOf tips0 _ i hij.1]
      rw [getD_map_indexOf tips0 _ j hij.2]
    · rw [if_neg hij]
      exact hpreserve C0 tips0 fillF0 i j hij
  refine ⟨hmain C tips fillF, ?_, ?_⟩
  · unfold vcExtendedCOut
    by_cases he : vcEarlyReturn env
    · rw [if_pos he]
    · rw [if_neg he]
      exact hmain C corrTips corrFillF
  · intro i j hij
    unfold applyTipCorrection
    refine corrFold_preserve _ C i j ?_
    intro p hp hcontra
    have hmem := List.of_mem_zip hp
    refine hij ⟨hcontra.1.trans hcontra.2.symm, ?_⟩
    rw [hcontra.1]; exact hmem.1

theorem c2_tip_correction_restored_witness :
    scopedTipCorrection (fun _ _ => 1) [0, 2] [1/2, 1/2] = (fun _ _ => 1) ∧
    applyTipCorrection (fun _ _ => (1:ℝ)) [0, 2] [1/2, 1/2] 0 2 = 1 := by
  have h := c2_tip_correction_restored (fun _ _ => 1) [0, 2] [1/2, 1/2]
    envC5 [] []
  exact ⟨h.1, h.2.2 0 2 (by simp)⟩

/-- On the iteration-cap return path of Picard_Newton the returned
solution is a NaN-filled vector. -/
theorem pnGo_capHit_nan (args : PNArgs) : ∀ (fuel : ℕ) (solk : List RV)
    (conv : Bool) (k : ℕ) (sol : List RV),
    pnGo args fuel solk conv k = (sol, PNExit.capHit) →
    sol = List.replicate sol.length RV.nan := by
  intro fuel
  induction fuel with
  | zero =>
    intro solk conv k sol h
    simp only [pnGo] at h
    exact absurd (congrArg Prod.snd h) (by simp)
  | succ n ih =>
    intro solk conv k sol h
    simp only [pnGo] at h
    split at h
    · split at h
      · exact absurd (congrArg Prod.snd h) (by simp)
      · split at h
        · have h1 : List.replicate _ RV.nan = sol := congrArg Prod.fst h
          rw [← h1, List.length_replicate]
        · exact ih _ _ _ _ h
    · exact absurd (congrArg Prod.snd h) (by simp)

/-- Adding a NaN-filled vector makes every component NaN. -/
theorem zipWith_add_nan : ∀ (xs : List RV) (m : ℕ),
    List.zipWith RV.add xs (List.replicate m RV.nan)
      = List.replicate (min xs.length m) RV.nan := by
  intro xs
  induction xs with
  | nil => intro m; simp
  | cons x xs ih =>
    intro m
    cases m with
    | zero => simp
    | succ m2 =>
      have hx : RV.add x RV.nan = RV.nan := by cases x <;> rfl
      simp only [List.replicate_succ, List.zipWith_cons_cons, ih, hx,
        List.length_cons, Nat.succ_min_succ]

/-- Scattering NaN values at in-range positions leaves a NaN in the
array. -/
theorem foldl_set_nan : ∀ (ps : List (ℕ × RV)) (acc : List RV),
    ps ≠ [] → (∀ p ∈ ps, p.2 = RV.nan ∧ p.1 < acc.length) →
    RV.nan ∈ ps.foldl (fun a p => a.set p.1 p.2) acc := by
  intro ps
  induction ps with
  | nil => intro acc h _; exact absurd rfl h
  | cons p ps ih =>
    intro acc _ hall
    rw [List.foldl_cons]
    cases ps with
    | nil =>
      simp only [List.foldl_nil]
      have hp := hall p (List.mem_cons_self p [])
      rw [hp.1]
      have hset : (acc.set p.1 RV.nan)[p.1]? = some RV.nan :=
        List.getElem?_set_self hp.2
      exact List.getElem?_mem hset
    | cons q ps2 =>
      refine ih (acc.set p.1 p.2) (by simp) ?_
      intro r hr
      have h2 := hall r (List.mem_cons_of_mem p hr)
      exact ⟨h2.1, by simpa [List.length_set] using h2.2⟩

/-- The small-negative-width replacement keeps NaN entries. -/
theorem smallNgtvReplace_nan_mem (l : List RV) (h : RV.nan ∈ l) :
    RV.nan ∈ smallNgtvReplace l := by
  simp only [smallNgtvReplace]
  exact List.mem_map.mpr ⟨RV.nan, h, rfl⟩

/-- np.isnan(l).any() holds when NaN is a member. -/
theorem isnanAny_of_mem (l : List RV) (h : RV.nan ∈ l) : isnanAny l = true :=
  List.any_eq_true.mpr ⟨RV.nan, h, rfl⟩

/-- Claim C1, amended: when the Picard/Newton iteration of the
elasto-hydrodynamic solver reaches max_solver_iter without converging, it
returns a NaN-filled solution vector, and injection_same_footprint then
fails with status 5 (solution of elastohydrodynamic solver not valid) —
not with status 6, which the viscous time-stepping attempt reserves for
the fracture-front loop reaching maxFrontItr. -/
theorem c1_cap_gives_status5 (args : PNArgs) (guess w : List RV)
    (crack : List ℕ) (sol : List RV)
    (hrun : Picard_Newton args guess = (sol, PNExit.capHit))
    (hcr : crack ≠ []) (hlen : crack.length ≤ sol.length)
    (hbound : ∀ c ∈ crack, c < w.length) :
    (injection_same_footprint args guess w crack).1 = 5 ∧ (5:ℕ) ≠ 6 := by
  have hnan : sol = List.replicate sol.length RV.nan :=
    pnGo_capHit_nan args args.maxitr guess false 1 sol hrun
  have hg : (gatherRV w crack).length = crack.length := by
    simp [gatherRV]
  have hvals : List.zipWith RV.add (gatherRV w crack) sol
      = List.replicate crack.length RV.nan := by
    conv_lhs => rw [hnan]
    rw [zipWith_add_nan, hg, min_eq_left hlen]
  have hmem : RV.nan ∈ fancyAddRV w crack sol := by
    unfold fancyAddRV scatterRV
    rw [hvals]
    refine foldl_set_nan _ w ?_ ?_
    · have hzl : (List.zip crack (List.replicate crack.length RV.nan)).length
          = crack.length := by simp
      have hpos : 0 < (List.zip crack (List.replicate crack.length RV.nan)).length := by
        rw [hzl]
        exact List.length_pos.mpr hcr
      exact List.length_pos.mp hpos
    · intro p hp
      have h1 := List.of_mem_zip hp
      exact ⟨List.eq_of_mem_replicate h1.2, hbound p.1 h1.1⟩
  have hnanAny : isnanAny (smallNgtvReplace (fancyAddRV w crack sol)) = true :=
    isnanAny_of_mem _ (smallNgtvReplace_nan_mem _ hmem)
  refine ⟨?_, by decide⟩
  unfold injection_same_footprint
  rw [hrun]
  show (injectionSameFootprintTail w crack sol).1 = 5
  simp only [injectionSameFootprintTail]
  rw [hnanAny]
  rfl

/-- Claim C1 as stated is false: in this concrete run the solver hits its
iteration cap of 2 (the convergence check never succeeds), and the
same-footprint injection step returns status 5, not the claimed status 6
(EHD did not converge). -/
theorem c1_counterexample :
    (Picard_Newton ⟨fun v => some v, id, fun _ _ => false, 1, 1000, 2⟩
        [RV.val 0]).2 = PNExit.capHit ∧
    (injection_same_footprint ⟨fun v => some v, id, fun _ _ => false, 1, 1000, 2⟩
        [RV.val 0] [RV.val 0] [0]).1 = 5 ∧ (5:ℕ) ≠ 6 := by
  refine ⟨by decide, by decide, by decide⟩

theorem c1_cap_gives_status5_witness :
    (injection_same_footprint ⟨fun v => some v, id, fun _ _ => false, 1, 1000, 2⟩
        [RV.val 0] [RV.val 0] [0]).1 = 5 ∧ (5:ℕ) ≠ 6 :=
  c1_cap_gives_status5 ⟨fun v => some v, id, fun _ _ => false, 1, 1000, 2⟩
    [RV.val 0] [RV.val 0] [0] [RV.nan] (by decide) (by decide) (by decide)
    (by decide)

/-- Claim C10: in the same-footprint pre-solve, a resulting width entry
that is negative but greater than minus the mean width is replaced by
0.01 times its absolute value (any other entry is left alone); such a
replacement value is never negative, so these entries cannot trigger
failure; and status 5 is returned exactly when the width vector still
contains a NaN or a negative entry after the replacement. -/
theorem c10_small_negative_hack (w : List RV) (crack : List ℕ)
    (sol : List RV) (i : ℕ)
    (hi : i < (fancyAddRV w crack sol).length) :
    ((smallNgtvReplace (fancyAddRV w crack sol)).getD i RV.nan =
      (if RV.lt ((fancyAddRV w crack sol).getD i RV.nan) (RV.val 0) &&
          RV.lt (RV.mul (RV.val (-1)) (npMean (fancyAddRV w crack sol)))
            ((fancyAddRV w crack sol).getD i RV.nan)
        then RV.mul (RV.val (1/100)) (RV.rabs ((fancyAddRV w crack sol).getD i RV.nan))
        else (fancyAddRV w crack sol).getD i RV.nan)) ∧
    (∀ q : ℚ, q < 0 →
      RV.lt (RV.mul (RV.val (1/100)) (RV.rabs (RV.val q))) (RV.val 0) = false) ∧
    ((injectionSameFootprintTail w crack sol).1 = 5 ↔
      (isnanAny (smallNgtvReplace (fancyAddRV w crack sol))
        || anyNeg (smallNgtvReplace (fancyAddRV w crack sol))) = true) := by
  refine ⟨?_, ?_, ?_⟩
  · simp only [smallNgtvReplace, List.getD_eq_getElem?_getD, List.getElem?_map,
      List.getElem?_eq_getElem hi, Option.map_some', Option.getD_some]
  · intro q hq
    simp only [RV.rabs, RV.mul, RV.lt]
    rw [decide_eq_false_iff_not]
    exact not_lt.mpr (by positivity)
  · simp only [injectionSameFootprintTail]
    split_ifs with hcond
    · exact iff_of_true rfl hcond
    · exact iff_of_false (fun hcontra => by simp at hcontra) hcond

/-- A list is the graph of its getD function over its index range. -/
theorem map_getD_range (l : List ℚ) :
    (List.range l.length).map (fun i => l.getD i 0) = l := by
  induction l with
  | nil => rfl
  | cons x xs ih =>
    rw [List.length_cons, List.range_succ_eq_map, List.map_cons, List.map_map]
    simp only [Function.comp_def, Nat.succ_eq_add_one, List.getD_cons_succ,
      List.getD_cons_zero]
    rw [ih]

/-- Zipping a list with its image under g gives the graph of g. -/
theorem zip_self_map (xs : List ℕ) (g : ℕ → ℚ) :
    xs.zip (xs.map g) = xs.map (fun i => (i, g i)) := by
  have h := List.zip_map' id g xs
  simpa using h

/-- np.ndenumerate of a gathered vector is the graph of the gather
function over the index range. -/
theorem enum_map_range (g : ℕ → ℚ) (n : ℕ) :
    ((List.range n).map g).enum = (List.range n).map (fun i => (i, g i)) := by
  show ((List.range n).map g).enumFrom 0 = _
  rw [List.enumFrom_eq_zip_range']
  simp only [List.length_map, List.length_range]
  rw [← List.range_eq_range']
  exact zip_self_map _ g

/-- Filtering the graph on the index and keeping the values equals mapping
over the filtered indices. -/
theorem filter_on_fst_map_snd (xs : List ℕ) (g : ℕ → ℚ) (pb : ℕ → Bool) :
    (((xs.map (fun i => (i, g i))).filter (fun p => pb p.1)).map Prod.snd)
      = (xs.filter pb).map g := by
  induction xs with
  | nil => rfl
  | cons x xs ih =>
    simp only [List.map_cons, List.filter_cons]
    cases hpb : pb x <;> simp [hpb, ih]

/-- Filtering the graph on the value and keeping the indices equals
filtering the indices through g. -/
theorem filter_on_snd_map_fst (xs : List ℕ) (g : ℕ → ℚ) (pb : ℚ → Bool) :
    (((xs.map (fun i => (i, g i))).filter (fun p => pb p.2)).map Prod.fst)
      = xs.filter (fun i => pb (g i)) := by
  induction xs with
  | nil => rfl
  | cons x xs ih =>
    simp only [List.map_cons, List.filter_cons]
    cases hpb : pb (g x) <;> simp [hpb, ih]

/-- np.delete on a gathered prefix drops exactly the listed index
positions. -/
theorem deleteIdxs_gather (g : ℕ → ℚ) (n : ℕ) (ps : List ℕ) :
    deleteIdxs ((List.range n).map g) ps
      = ((List.range n).filter (fun i => decide (¬ i ∈ ps))).map g := by
  unfold deleteIdxs
  rw [enum_map_range]
  exact filter_on_fst_map_snd (List.range n) g (fun i => decide (¬ i ∈ ps))

/-- np.where(l == 0)[0] lists the indices below the length whose entry is
zero. -/
theorem whereZero_eq_filter (l : List ℚ) :
    whereZero l = (List.range l.length).filter (fun i => decide (l.getD i 0 = 0)) := by
  conv_lhs => rw [← map_getD_range l]
  unfold whereZero
  rw [enum_map_range]
  exact filter_on_snd_map_fst (List.range l.length) (fun i => l.getD i 0)
    (fun q => decide (q = 0))

/-- The componentwise relative difference of two gathers is a map over the
index list. -/
theorem relDiff_gather (solk solkm1 : List ℚ) (idxs : List ℕ) :
    relDiff (gatherQ solk idxs) (gatherQ solkm1 idxs)
      = idxs.map (fun i => |solk.getD i 0 - solkm1.getD i 0| / |solkm1.getD i 0|) := by
  unfold gatherQ relDiff
  rw [List.zipWith_map, List.zipWith_same]

/-- Width entries surviving np.delete at the zero positions of the
previous iterate are exactly those whose previous value is nonzero. -/
theorem width_lists_eq (solk solkm1 : List ℚ) (n : ℕ) (hn : n ≤ solkm1.length) :
    relDiff (deleteIdxs (gatherQ solk (List.range n)) (whereZero solkm1))
            (deleteIdxs (gatherQ solkm1 (List.range n)) (whereZero solkm1))
      = ((List.range n).filter (fun i => decide (¬ solkm1.getD i 0 = 0))).map
          (fun i => |solk.getD i 0 - solkm1.getD i 0| / |solkm1.getD i 0|) := by
  unfold gatherQ
  rw [deleteIdxs_gather, deleteIdxs_gather]
  unfold relDiff
  rw [List.zipWith_map, List.zipWith_same]
  congr 1
  apply List.filter_congr
  intro i hi
  have hilt : i < n := List.mem_range.mp hi
  have hiff : (i ∈ whereZero solkm1) ↔ solkm1.getD i 0 = 0 := by
    rw [whereZero_eq_filter]
    constructor
    · intro h
      have := List.mem_filter.mp h
      simpa using this.2
    · intro h
      refine List.mem_filter.mpr ⟨List.mem_range.mpr (lt_of_lt_of_le hilt hn), ?_⟩
      simpa using h
  exact decide_eq_decide.mpr (not_congr hiff)

/-- With no zero entry in the previous iterate the width norm runs over
all entries, which is also what the nonzero filter keeps. -/
theorem width_lists_eq_nozero (solk solkm1 : List ℚ) (n : ℕ)
    (hn : n ≤ solkm1.length) (hz : whereZero solkm1 = []) :
    relDiff (gatherQ solk (List.range n)) (gatherQ solkm1 (List.range n))
      = ((List.range n).filter (fun i => decide (¬ solkm1.getD i 0 = 0))).map
          (fun i => |solk.getD i 0 - solkm1.getD i 0| / |solkm1.getD i 0|) := by
  rw [relDiff_gather]
  have hfull : (List.range n).filter (fun i => decide (¬ solkm1.getD i 0 = 0))
      = List.range n := by
    apply List.filter_eq_self.mpr
    intro i hi
    have hilt := List.mem_range.mp hi
    simp only [decide_eq_true_eq]
    intro heq
    have hmem : i ∈ whereZero solkm1 := by
      rw [whereZero_eq_filter]
      refine List.mem_filter.mpr ⟨List.mem_range.mpr (lt_of_lt_of_le hilt hn), ?_⟩
      simpa using heq
    rw [hz] at hmem
    exact absurd hmem (List.not_mem_nil i)
  rw [hfull]

/-- Claim C8: check_covergance declares convergence exactly when the
width, pressure and traction componentwise relative-difference norms are
all at or below the tolerance, where the width norm runs over exactly
those width entries (the first n_ch solution slots, as produced by every
equation-system assembler) whose previous-iterate value is nonzero. The
hypothesis that previous pressure and traction entries are nonzero scopes
the statement to inputs where exact arithmetic and float arithmetic agree
(numpy would produce an infinite norm there, this embedding a zero
quotient). -/
theorem c8_convergence_check (solk solkm1 : List ℚ) (ind1 ind2 : List ℕ)
    (nch : ℕ) (tol : ℝ) (hn : nch ≤ solkm1.length)
    (hpz : ∀ i ∈ ind1 ++ ind2, solkm1.getD i 0 ≠ 0) :
    check_covergance solk solkm1 ⟨List.range nch, ind1, ind2⟩ tol ↔
      (widthNormSpec solk solkm1 (List.range nch) ≤ tol ∧
       groupNormSpec solk solkm1 ind1 ≤ tol ∧
       groupNormSpec solk solkm1 ind2 ≤ tol) := by
  have hw : (if 0 < (whereZero solkm1).length then
        norml2 (relDiff (deleteIdxs (gatherQ solk (List.range nch)) (whereZero solkm1))
                        (deleteIdxs (gatherQ solkm1 (List.range nch)) (whereZero solkm1)))
      else norml2 (relDiff (gatherQ solk (List.range nch)) (gatherQ solkm1 (List.range nch))))
      = widthNormSpec solk solkm1 (List.range nch) := by
    by_cases hz : 0 < (whereZero solkm1).length
    · rw [if_pos hz]
      unfold widthNormSpec
      rw [width_lists_eq solk solkm1 nch hn]
    · rw [if_neg hz]
      unfold widthNormSpec
      rw [width_lists_eq_nozero solk solkm1 nch hn
        (List.eq_nil_of_length_eq_zero (by omega))]
  have hp : norml2 (relDiff (gatherQ solk ind1) (gatherQ solkm1 ind1))
      = groupNormSpec solk solkm1 ind1 := by
    unfold groupNormSpec
    rw [relDiff_gather]
  have htr : (if 0 < ind2.length then
        norml2 (relDiff (gatherQ solk ind2) (gatherQ solkm1 ind2)) else 0)
      = groupNormSpec solk solkm1 ind2 := by
    by_cases h2 : 0 < ind2.length
    · rw [if_pos h2]
      unfold groupNormSpec
      rw [relDiff_gather]
    · rw [if_neg h2]
      have : ind2 = [] := List.eq_nil_of_length_eq_zero (by omega)
      subst this
      unfold groupNormSpec norml2 sumSq
      simp
  simp only [check_covergance]
  rw [hw, hp, htr]

theorem c8_convergence_check_witness :
    check_covergance [4, 5] [2, 3] ⟨List.range 1, [1], []⟩ 1 ↔
      (widthNormSpec [4, 5] [2, 3] (List.range 1) ≤ 1 ∧
       groupNormSpec [4, 5] [2, 3] [1] ≤ 1 ∧
       groupNormSpec [4, 5] [2, 3] [] ≤ 1) :=
  c8_convergence_check [4, 5] [2, 3] [1] [] 1 1 (by decide) (by decide)

theorem c10_small_negative_hack_witness :
    ((injectionSameFootprintTail [RV.val 0, RV.val 10] [0, 1]
        [RV.val (-1), RV.val 0]).1 = 5 ↔
      (isnanAny (smallNgtvReplace (fancyAddRV [RV.val 0, RV.val 10] [0, 1]
          [RV.val (-1), RV.val 0]))
        || anyNeg (smallNgtvReplace (fancyAddRV [RV.val 0, RV.val 10] [0, 1]
          [RV.val (-1), RV.val 0]))) = true) ∧
    RV.lt (RV.mul (RV.val (1/100)) (RV.rabs (RV.val (-1)))) (RV.val 0) = false := by
  have h := c10_small_negative_hack [RV.val 0, RV.val 10] [0, 1]
      [RV.val (-1), RV.val 0] 0 (by decide)
  exact ⟨h.2.2, h.2.1 (-1) (by norm_num)⟩

end PyFrac
